import Mathlib

/-
  Verification development for two modules of the n8n repository:
  - SharedWorkflowRepository (src/unnamed/part_000), a TypeORM repository over
    the SharedWorkflow join entity (workflowId, userId, roleId);
  - cloudPlans REST client (src/packages/editor-ui/src/api/cloudPlans.ts).

  The database is modelled as a list of SharedWorkflow rows together with a
  roles table; TypeORM find/exist/findOne/update/delete/save calls become pure
  functions on that state.  Each repository method is translated directly from
  the source: it builds the same where-clause / criteria object the TypeScript
  code builds and hands it to the generic executor.
-/

namespace N8n

/-- Role entity (src/entities/Role, referenced by the repository): an id, a
name such as "owner", and a scope such as "workflow". -/
structure Role where
  id : String
  name : String
  scope : String
deriving DecidableEq, Repr

/-- User entity as consumed by the repository: an id, the isPending flag read
by share, the set of global scopes backing user.hasGlobalScope, and the
globalRole read by getSharedWorkflows. -/
structure User where
  id : String
  isPending : Bool
  globalScopes : List String
  globalRole : Role
deriving DecidableEq, Repr

/-- Modelled from the User entity's hasGlobalScope method (external to this
excerpt): the user holds a global scope iff it is among their global scopes. -/
def User.hasGlobalScope (u : User) (scope : String) : Bool :=
  u.globalScopes.contains scope

/-- SharedWorkflow join entity (src/entities/SharedWorkflow): one user's access
grant to one workflow at one role. -/
structure SharedWorkflow where
  workflowId : String
  userId : String
  roleId : String
deriving DecidableEq, Repr

/-- WorkflowEntity as consumed by share: only its id is read. -/
structure WorkflowEntity where
  id : String
deriving DecidableEq, Repr

/-- Database state visible to the repository: the shared_workflow table plus
the role table joined against by relation-based where clauses. -/
structure DB where
  sharings : List SharedWorkflow
  roles : List Role
deriving DecidableEq, Repr

/-- Lookup of a role row by primary key, used to evaluate relation-based
where conditions (an inner join on role). -/
def rolesLookup (roles : List Role) (roleId : String) : Option Role :=
  roles.find? (fun r => r.id = roleId)

/-- Identifier condition in a TypeORM where clause: plain equality or
membership in an In(...) list. -/
inductive IdCond where
  | eq (id : String)
  | inList (ids : List String)
deriving DecidableEq, Repr

/-- Evaluation of an optional identifier condition against a field value. -/
def IdCond.holds : Option IdCond → String → Bool
  | none, _ => true
  | some (.eq i), v => v = i
  | some (.inList ids), v => ids.contains v

/-- Condition on the joined role relation, in the three forms the repository
uses: role: \x7bname, scope\x7d (findByWorkflowIds), role: \x7bname: In(names)\x7d
(findSharing), role: In(roleIds) (findWorkflowIdsByUser). -/
inductive RoleCond where
  | nameScopeEq (name : String) (scope : String)
  | nameIn (names : List String)
  | idIn (ids : List String)
deriving DecidableEq, Repr

/-- Where clause over SharedWorkflow as the repository builds it: an optional
condition on workflowId (directly or via the workflow relation's id), an
optional equality on userId (directly or via the user relation's id), and an
optional condition on the joined role. -/
structure WhereSW where
  wfId : Option IdCond := none
  userId : Option String := none
  role : Option RoleCond := none
deriving DecidableEq, Repr

/-- Evaluation of a where clause against one row, joining the role table when
the clause constrains the role relation (no matching role row, no match). -/
def matchesWhere (roles : List Role) (w : WhereSW) (row : SharedWorkflow) : Bool :=
  IdCond.holds w.wfId row.workflowId &&
  (match w.userId with
    | none => true
    | some uid => row.userId = uid) &&
  (match w.role with
    | none => true
    | some (.nameScopeEq n s) =>
        match rolesLookup roles row.roleId with
        | some r => r.name = n && r.scope = s
        | none => false
    | some (.nameIn names) =>
        match rolesLookup roles row.roleId with
        | some r => names.contains r.name
        | none => false
    | some (.idIn ids) => ids.contains row.roleId)

/-- Find options as passed to this.find / this.findOne: relations to load,
selected columns, and the where clause.  In TypeORM the select list restricts
returned columns, never which rows match; rows here stay whole. -/
structure FindManyOptions where
  relations : List String := []
  select : List String := []
  whereCond : WhereSW := {}
deriving DecidableEq, Repr

/-- Execution of this.find: the rows matching the where clause, in table
order. -/
def execFind (db : DB) (o : FindManyOptions) : List SharedWorkflow :=
  db.sharings.filter (fun row => matchesWhere db.roles o.whereCond row)

/-- Execution of this.findOne: the first matching row or null. -/
def execFindOne (db : DB) (o : FindManyOptions) : Option SharedWorkflow :=
  db.sharings.find? (fun row => matchesWhere db.roles o.whereCond row)

/-- Execution of this.exist: whether some row matches the where clause. -/
def execExist (db : DB) (o : FindManyOptions) : Bool :=
  db.sharings.any (fun row => matchesWhere db.roles o.whereCond row)

/-- Where clause built by hasAccess (part_000 lines 16-24): workflowId always,
userId unless the user holds the global workflow:read scope. -/
def hasAccessWhere (workflowId : String) (user : User) : WhereSW :=
  let w : WhereSW := { wfId := some (.eq workflowId) }
  if !(user.hasGlobalScope "workflow:read") then { w with userId := some user.id } else w

/-- hasAccess (part_000 lines 16-24): this.exist on the above where clause.
Reads are returned together with the (unchanged) database state. -/
def hasAccess (db : DB) (workflowId : String) (user : User) : Bool × DB :=
  (execExist db { whereCond := hasAccessWhere workflowId user }, db)

/-- getSharedWorkflowIds (part_000 lines 26-34): select workflowId of rows
whose workflowId is in the list, then map to the workflowId column. -/
def getSharedWorkflowIds (db : DB) (workflowIds : List String) : List String × DB :=
  let sharedWorkflows :=
    execFind db { select := ["workflowId"], whereCond := { wfId := some (.inList workflowIds) } }
  (sharedWorkflows.map (fun sharing => sharing.workflowId), db)

/-- Options built by findByWorkflowIds (part_000 lines 36-47): relations role
and user, role name owner at scope workflow, workflowId in the list. -/
def findByWorkflowIdsOptions (workflowIds : List String) : FindManyOptions :=
  { relations := ["role", "user"],
    whereCond := { role := some (.nameScopeEq "owner" "workflow"),
                   wfId := some (.inList workflowIds) } }

/-- findByWorkflowIds (part_000 lines 36-47): this.find on those options. -/
def findByWorkflowIds (db : DB) (workflowIds : List String) : List SharedWorkflow × DB :=
  (execFind db (findByWorkflowIdsOptions workflowIds), db)

/-- Options argument of findSharing: optional role-name list and extra
relations. -/
structure FindSharingOptions where
  roles : Option (List String) := none
  extraRelations : Option (List String) := none
deriving DecidableEq, Repr

/-- Where clause built by findSharing (part_000 lines 49-72): workflow
relation id always; user relation id unless the user holds the given global
scope; role name In(roles) when roles is given. -/
def findSharingWhere (workflowId : String) (user : User) (scope : String)
    (opts : FindSharingOptions) : WhereSW :=
  let w : WhereSW := { wfId := some (.eq workflowId) }
  let w := if !(user.hasGlobalScope scope) then { w with userId := some user.id } else w
  match opts.roles with
  | some rs => { w with role := some (.nameIn rs) }
  | none => w

/-- Relations list built by findSharing: workflow and role, then the extra
relations when given. -/
def findSharingRelations (opts : FindSharingOptions) : List String :=
  let relations := ["workflow", "role"]
  match opts.extraRelations with
  | some extra => relations ++ extra
  | none => relations

/-- findSharing (part_000 lines 49-72): this.findOne on the built clause. -/
def findSharing (db : DB) (workflowId : String) (user : User) (scope : String)
    (opts : FindSharingOptions) : Option SharedWorkflow × DB :=
  (execFindOne db { relations := findSharingRelations opts,
                    whereCond := findSharingWhere workflowId user scope opts }, db)

/-- Update criteria as makeOwnerOfAllWorkflows passes them to this.update:
Not(user.id) on userId together with an equality on roleId. -/
structure UpdateCriteria where
  userIdNot : Option String := none
  roleId : Option String := none
deriving DecidableEq, Repr

/-- Partial entity passed as the update payload; only the user relation is
ever set, which the ORM persists as the userId column. -/
structure UpdatePayload where
  userId : Option String := none
deriving DecidableEq, Repr

/-- Evaluation of update criteria against one row. -/
def matchesCriteria (c : UpdateCriteria) (row : SharedWorkflow) : Bool :=
  (match c.userIdNot with
    | none => true
    | some uid => row.userId ≠ uid) &&
  (match c.roleId with
    | none => true
    | some rid => row.roleId = rid)

/-- Application of an update payload to one row. -/
def applyPayload (p : UpdatePayload) (row : SharedWorkflow) : SharedWorkflow :=
  match p.userId with
  | none => row
  | some uid => { row with userId := uid }

/-- Execution of this.update(criteria, payload): every matching row gets the
payload applied, every other row is unchanged. -/
def execUpdate (db : DB) (c : UpdateCriteria) (p : UpdatePayload) : DB :=
  { db with sharings := db.sharings.map (fun row =>
      if matchesCriteria c row then applyPayload p row else row) }

/-- makeOwnerOfAllWorkflows (part_000 lines 74-76): update with criteria
userId Not(user.id) and roleId role.id, payload setting the user. -/
def makeOwnerOfAllWorkflows (db : DB) (user : User) (role : Role) : DB :=
  execUpdate db { userIdNot := some user.id, roleId := some role.id } { userId := some user.id }

/-- Options argument of getSharing: the TypeScript union type
allowGlobalScope true with a scope, or allowGlobalScope false. -/
inductive GetSharingOptions where
  | allowGlobal (globalScope : String)
  | denyGlobal
deriving DecidableEq, Repr

/-- Where clause built by getSharing (part_000 lines 78-94): workflowId
always; userId unless allowGlobalScope holds and the user has the given
global scope. -/
def getSharingWhere (user : User) (workflowId : String)
    (options : GetSharingOptions) : WhereSW :=
  let w : WhereSW := { wfId := some (.eq workflowId) }
  match options with
  | .denyGlobal => { w with userId := some user.id }
  | .allowGlobal globalScope =>
      if !(user.hasGlobalScope globalScope) then { w with userId := some user.id } else w

/-- getSharing (part_000 lines 78-94): this.findOne on the built clause with
the given relations (default workflow). -/
def getSharing (db : DB) (user : User) (workflowId : String)
    (options : GetSharingOptions) (relations : List String := ["workflow"]) :
    Option SharedWorkflow × DB :=
  (execFindOne db { relations, whereCond := getSharingWhere user workflowId options }, db)

/-- Where clause built by getSharedWorkflows (part_000 lines 96-110): userId
unless the user's global role name is owner or admin; workflowId In(list)
when workflowIds is given. -/
def getSharedWorkflowsWhere (user : User) (workflowIds : Option (List String)) : WhereSW :=
  let w : WhereSW := {}
  let w := if !(["owner", "admin"].contains user.globalRole.name)
           then { w with userId := some user.id } else w
  match workflowIds with
  | some ids => { w with wfId := some (.inList ids) }
  | none => w

/-- getSharedWorkflows (part_000 lines 96-110): this.find on the built
clause, with the optional relations list. -/
def getSharedWorkflows (db : DB) (user : User)
    (workflowIds : Option (List String)) (relations : Option (List String)) :
    List SharedWorkflow × DB :=
  (execFind db { relations := relations.getD [],
                 whereCond := getSharedWorkflowsWhere user workflowIds }, db)

/-- Reduce callback of share (part_000 lines 113-123): a pending user leaves
the accumulator unchanged, any other user appends an entity carrying
workflow.id, the user's id and the given roleId. -/
def shareStep (workflow : WorkflowEntity) (roleId : String)
    (acc : List SharedWorkflow) (user : User) : List SharedWorkflow :=
  if user.isPending then acc
  else acc ++ [{ workflowId := workflow.id, userId := user.id, roleId := roleId }]

/-- share (part_000 lines 112-127): fold over users exactly as the source
reduce does, with the callback above; transaction.save appends the new rows
and returns them. -/
def share (db : DB) (workflow : WorkflowEntity) (users : List User)
    (roleId : String) : List SharedWorkflow × DB :=
  let newSharedWorkflows := users.foldl (shareStep workflow roleId) []
  (newSharedWorkflows, { db with sharings := db.sharings ++ newSharedWorkflows })

/-- findWithFields (part_000 lines 129-136): find rows whose workflowId is in
the list, selecting the given fields (a column projection on the ORM side; the
matched row set is unaffected). -/
def findWithFields (db : DB) (workflowIds : List String) (fields : List String) :
    List SharedWorkflow × DB :=
  (execFind db { select := fields, whereCond := { wfId := some (.inList workflowIds) } }, db)

/-- Delete criteria as deleteByIds passes them to transaction.delete: an
optional user (TypeORM drops the key when the argument is undefined) and
workflowId In(list). -/
def matchesDeleteCriteria (user : Option User) (workflowIds : List String)
    (row : SharedWorkflow) : Bool :=
  (match user with
    | none => true
    | some u => row.userId = u.id) &&
  workflowIds.contains row.workflowId

/-- deleteByIds (part_000 lines 138-143): transaction.delete of every row
matching the criteria; the ids are matched against the workflowId column. -/
def deleteByIds (db : DB) (sharedWorkflowIds : List String) (user : Option User) : DB :=
  { db with sharings := db.sharings.filter (fun row =>
      !(matchesDeleteCriteria user sharedWorkflowIds row)) }

/-- Where clause built by findWorkflowIdsByUser (part_000 lines 145-155):
userId unless the user holds the global workflow:read scope; role In(role
ids) when the roles option is given. -/
def findWorkflowIdsByUserWhere (user : User) (roles : Option (List Role)) : WhereSW :=
  let w : WhereSW := {}
  let w := if !(user.hasGlobalScope "workflow:read") then { w with userId := some user.id } else w
  match roles with
  | some rs => { w with role := some (.idIn (rs.map (fun r => r.id))) }
  | none => w

/-- findWorkflowIdsByUser (part_000 lines 145-155): select workflowId of the
matching rows and map to the workflowId column. -/
def findWorkflowIdsByUser (db : DB) (user : User) (roles : Option (List Role)) :
    List String × DB :=
  let sharings := execFind db { select := ["workflowId"],
                                whereCond := findWorkflowIdsByUserWhere user roles }
  (sharings.map (fun s => s.workflowId), db)

/-- Connection context of the REST client (IRestApiContext): only baseUrl is
read. -/
structure IRestApiContext where
  baseUrl : String
deriving DecidableEq, Repr

/-- getCurrentPlan (cloudPlans.ts lines 4-6): the get transport applied to
context.baseUrl and the fixed path, with its result or error returned as is.
The transport is passed explicitly since the excerpt imports it. -/
def getCurrentPlan {ε α : Type} (get : String → String → Except ε α)
    (context : IRestApiContext) : Except ε α :=
  get context.baseUrl "/admin/cloud-plan"

/-- getCurrentUsage (cloudPlans.ts lines 8-10): the get transport applied to
context.baseUrl and the fixed path. -/
def getCurrentUsage {ε α : Type} (get : String → String → Except ε α)
    (context : IRestApiContext) : Except ε α :=
  get context.baseUrl "/cloud/limits"

/-- getAdminPanelLoginCode (cloudPlans.ts lines 12-14): the get transport
applied to context.baseUrl and the fixed path. -/
def getAdminPanelLoginCode {ε α : Type} (get : String → String → Except ε α)
    (context : IRestApiContext) : Except ε α :=
  get context.baseUrl "/admin/auth/login/code"

/-- Qualification rule for getSharing as the claim states it: allowGlobalScope
is true and the user has the given global scope. -/
def getSharingQualifies (user : User) (options : GetSharingOptions) : Bool :=
  match options with
  | .allowGlobal globalScope => user.hasGlobalScope globalScope
  | .denyGlobal => false

/-- Row built by share for one non-pending user. -/
def shareRow (workflow : WorkflowEntity) (roleId : String) (u : User) : SharedWorkflow :=
  { workflowId := workflow.id, userId := u.id, roleId := roleId }

theorem share_foldl_eq (workflow : WorkflowEntity) (roleId : String)
    (users : List User) (init : List SharedWorkflow) :
    users.foldl (shareStep workflow roleId) init
      = init ++ (users.filter (fun u => !u.isPending)).map (shareRow workflow roleId) := by
  induction users generalizing init with
  | nil => simp
  | cons u us ih =>
    cases hp : u.isPending <;>
      simp [List.foldl_cons, shareStep, hp, ih, List.filter_cons, shareRow]

/-- C1: getSharing, findSharing and getSharedWorkflows omit the userId filter
from their where clause exactly when the caller qualifies (getSharing:
allowGlobalScope and the user has the given global scope; findSharing: the
user has the given global scope; getSharedWorkflows: the global role name is
owner or admin), and otherwise set it to the caller's id. -/
theorem user_filter_omitted_iff_qualified (user : User) (workflowId : String)
    (gopts : GetSharingOptions) (scope : String) (fopts : FindSharingOptions)
    (wids : Option (List String)) :
    (getSharingWhere user workflowId gopts).userId
      = (if getSharingQualifies user gopts then none else some user.id)
    ∧ (findSharingWhere workflowId user scope fopts).userId
      = (if user.hasGlobalScope scope then none else some user.id)
    ∧ (getSharedWorkflowsWhere user wids).userId
      = (if user.globalRole.name = "owner" ∨ user.globalRole.name = "admin"
         then none else some user.id) := by
  refine ⟨?_, ?_, ?_⟩
  · cases gopts with
    | denyGlobal => simp [getSharingWhere, getSharingQualifies]
    | allowGlobal s =>
        cases hs : user.hasGlobalScope s <;>
          simp [getSharingWhere, getSharingQualifies, hs]
  · cases hs : user.hasGlobalScope scope <;>
      cases hr : fopts.roles <;>
        simp [findSharingWhere, hs, hr]
  · by_cases h : user.globalRole.name = "owner" ∨ user.globalRole.name = "admin" <;>
      cases wids <;>
        simp [getSharedWorkflowsWhere, h]

/-- C2: hasAccess returns true iff a sharing row exists with that workflowId,
whose userId additionally equals the caller's id unless the caller holds the
global workflow:read scope. -/
theorem hasAccess_true_iff (db : DB) (workflowId : String) (user : User) :
    (hasAccess db workflowId user).1 = true ↔
      ∃ row ∈ db.sharings, row.workflowId = workflowId ∧
        (user.hasGlobalScope "workflow:read" = true ∨ row.userId = user.id) := by
  cases hs : user.hasGlobalScope "workflow:read" <;>
    simp [hasAccess, execExist, hasAccessWhere, hs, matchesWhere, IdCond.holds,
      List.any_eq_true, and_assoc]

/-- C3: share builds exactly one row per non-pending user of the list, with
workflow.id, the user's id and the given roleId, skips pending users, and
appends exactly those rows to the table. -/
theorem share_inserts_exactly_nonpending (db : DB) (workflow : WorkflowEntity)
    (users : List User) (roleId : String) :
    (share db workflow users roleId).1
      = (users.filter (fun u => !u.isPending)).map (shareRow workflow roleId)
    ∧ (share db workflow users roleId).2.sharings
      = db.sharings
          ++ (users.filter (fun u => !u.isPending)).map (shareRow workflow roleId) := by
  have h := share_foldl_eq workflow roleId users []
  simp only [List.nil_append] at h
  constructor <;> simp [share, h]

/-- Concrete role with id r1 used in the makeOwnerOfAllWorkflows counterexample. -/
def roleR1 : Role := { id := "r1", name := "owner", scope := "workflow" }

/-- Concrete user u1 used in the makeOwnerOfAllWorkflows counterexample. -/
def userU1 : User := { id := "u1", isPending := false, globalScopes := [], globalRole := roleR1 }

/-- Concrete database with one sharing row (w1, u2, r2) for the
makeOwnerOfAllWorkflows counterexample. -/
def dbOneRow : DB :=
  { sharings := [{ workflowId := "w1", userId := "u2", roleId := "r2" }],
    roles := [roleR1, { id := "r2", name := "editor", scope := "workflow" }] }

/-- C4 counterexample: on a table with the single row (w1, u2, r2), target
user u1 and role r1, the claim demands the row (whose userId differs from
u1) be updated to user u1 and role r1, but makeOwnerOfAllWorkflows leaves it
untouched: its update criteria also require roleId = r1, and r2 is not r1. -/
theorem makeOwnerOfAllWorkflows_claim_counterexample :
    (makeOwnerOfAllWorkflows dbOneRow userU1 roleR1).sharings
      = [{ workflowId := "w1", userId := "u2", roleId := "r2" }]
    ∧ ¬ ((makeOwnerOfAllWorkflows dbOneRow userU1 roleR1).sharings
      = dbOneRow.sharings.map (fun row =>
          if row.userId ≠ userU1.id
          then { row with userId := userU1.id, roleId := roleR1.id } else row)) := by
  decide

/-- C4 amended: makeOwnerOfAllWorkflows updates exactly the rows whose roleId
equals role.id and whose userId differs from user.id, setting their userId to
user.id (so an updated row carries the given user and role); every other row,
and the role table, are unchanged. -/
theorem makeOwnerOfAllWorkflows_updates_other_users_rows_of_role (db : DB)
    (user : User) (role : Role) :
    (makeOwnerOfAllWorkflows db user role).sharings
      = db.sharings.map (fun row =>
          if row.userId ≠ user.id ∧ row.roleId = role.id
          then { row with userId := user.id } else row)
    ∧ (makeOwnerOfAllWorkflows db user role).roles = db.roles := by
  refine ⟨?_, rfl⟩
  simp only [makeOwnerOfAllWorkflows, execUpdate]
  refine List.map_congr_left (fun row _ => ?_)
  by_cases h1 : row.userId = user.id <;> by_cases h2 : row.roleId = role.id <;>
    simp [matchesCriteria, applyPayload, h1, h2]

/-- C5: a row created by share for a non-pending user of the list is found by
findWithFields on the post-share state whenever workflow.id is among the
queried workflowIds. -/
theorem share_findWithFields_roundtrip (db : DB) (workflow : WorkflowEntity)
    (users : List User) (roleId : String) (workflowIds : List String)
    (fields : List String) (u : User)
    (hu : u ∈ users) (hp : u.isPending = false) (hw : workflow.id ∈ workflowIds) :
    shareRow workflow roleId u
      ∈ (findWithFields (share db workflow users roleId).2 workflowIds fields).1 := by
  have hmem : shareRow workflow roleId u ∈ (share db workflow users roleId).2.sharings := by
    have h := (share_inserts_exactly_nonpending db workflow users roleId).2
    rw [h]
    refine List.mem_append_right _ (List.mem_map_of_mem _ ?_)
    exact List.mem_filter.mpr ⟨hu, by simp [hp]⟩
  simp only [findWithFields, execFind, List.mem_filter]
  exact ⟨hmem, by simp [matchesWhere, IdCond.holds, shareRow, hw]⟩

/-- Concrete workflow used by the round-trip witness. -/
def wfW1 : WorkflowEntity := { id := "w1" }

/-- Concrete non-pending user used by the round-trip witness. -/
def userU3 : User := { id := "u3", isPending := false, globalScopes := [], globalRole := roleR1 }

/-- Witness for the round-trip: sharing workflow w1 with user u3 at role r1
on an empty table, then querying findWithFields for w1, yields the new row. -/
theorem share_findWithFields_roundtrip_witness :
    shareRow wfW1 "r1" userU3
      ∈ (findWithFields (share { sharings := [], roles := [] } wfW1 [userU3] "r1").2
          ["w1"] ["workflowId"]).1 :=
  share_findWithFields_roundtrip { sharings := [], roles := [] } wfW1 [userU3] "r1"
    ["w1"] ["workflowId"] userU3 (by decide) (by decide) (by decide)

/-- C6: findByWorkflowIds returns exactly the rows whose workflowId is in the
given list and whose joined role row has name owner and scope workflow, with
the role and user relations requested. -/
theorem findByWorkflowIds_owner_rows (db : DB) (workflowIds : List String)
    (row : SharedWorkflow) :
    (row ∈ (findByWorkflowIds db workflowIds).1 ↔
      row ∈ db.sharings ∧ row.workflowId ∈ workflowIds ∧
        ∃ r, rolesLookup db.roles row.roleId = some r ∧
          r.name = "owner" ∧ r.scope = "workflow")
    ∧ (findByWorkflowIdsOptions workflowIds).relations = ["role", "user"] := by
  refine ⟨?_, rfl⟩
  cases hr : rolesLookup db.roles row.roleId <;>
    simp [findByWorkflowIds, execFind, findByWorkflowIdsOptions, matchesWhere,
      IdCond.holds, List.mem_filter, hr, and_assoc]

/-- C7: findWorkflowIdsByUser returns the workflowId column of the rows
whose userId equals the caller's id unless the caller holds the global
workflow:read scope, restricted, when the roles option is given, to rows
whose roleId is among the given roles' ids. -/
theorem findWorkflowIdsByUser_spec (db : DB) (user : User)
    (roles : Option (List Role)) :
    (findWorkflowIdsByUser db user roles).1
      = (db.sharings.filter (fun row =>
          (user.hasGlobalScope "workflow:read" || row.userId = user.id) &&
          (match roles with
            | none => true
            | some rs => (rs.map (fun r => r.id)).contains row.roleId))).map
        (fun row => row.workflowId) := by
  cases hs : user.hasGlobalScope "workflow:read" <;>
    cases hr : roles <;>
      simp [findWorkflowIdsByUser, execFind, findWorkflowIdsByUserWhere, hs, hr,
        matchesWhere, IdCond.holds]

/-- C8: each of the three cloud-plan client functions is exactly the get
transport applied to the context's baseUrl and its fixed path, so each fails
iff the transport fails, with the error unchanged. -/
theorem cloudPlans_passthrough {ε α : Type} (get : String → String → Except ε α)
    (context : IRestApiContext) :
    getCurrentPlan get context = get context.baseUrl "/admin/cloud-plan"
    ∧ getCurrentUsage get context = get context.baseUrl "/cloud/limits"
    ∧ getAdminPanelLoginCode get context = get context.baseUrl "/admin/auth/login/code"
    ∧ (∀ e, getCurrentPlan get context = .error e
        ↔ get context.baseUrl "/admin/cloud-plan" = .error e)
    ∧ (∀ e, getCurrentUsage get context = .error e
        ↔ get context.baseUrl "/cloud/limits" = .error e)
    ∧ (∀ e, getAdminPanelLoginCode get context = .error e
        ↔ get context.baseUrl "/admin/auth/login/code" = .error e) :=
  ⟨rfl, rfl, rfl, fun _ => Iff.rfl, fun _ => Iff.rfl, fun _ => Iff.rfl⟩

/-- C9: every read method of the repository returns the database state it was
given: hasAccess, getSharedWorkflowIds, findByWorkflowIds, findSharing,
getSharing, getSharedWorkflows, findWithFields and findWorkflowIdsByUser
leave the table unchanged. -/
theorem read_methods_leave_db_unchanged (db : DB) (workflowId : String)
    (user : User) (workflowIds : List String) (scope : String)
    (fopts : FindSharingOptions) (gopts : GetSharingOptions)
    (relations : List String) (owids orels : Option (List String))
    (fields : List String) (oroles : Option (List Role)) :
    (hasAccess db workflowId user).2 = db
    ∧ (getSharedWorkflowIds db workflowIds).2 = db
    ∧ (findByWorkflowIds db workflowIds).2 = db
    ∧ (findSharing db workflowId user scope fopts).2 = db
    ∧ (getSharing db user workflowId gopts relations).2 = db
    ∧ (getSharedWorkflows db user owids orels).2 = db
    ∧ (findWithFields db workflowIds fields).2 = db
    ∧ (findWorkflowIdsByUser db user oroles).2 = db :=
  ⟨rfl, rfl, rfl, rfl, rfl, rfl, rfl, rfl⟩

/-- C10: deleteByIds matches the given ids against the workflowId column and
keeps a row iff it was present and not matched, a match being workflowId in
the list together with, when a user is supplied, that user's id; with no user
supplied rows of every user are matched, and the role table is untouched. -/
theorem deleteByIds_spec (db : DB) (ids : List String) (uopt : Option User)
    (row : SharedWorkflow) :
    (row ∈ (deleteByIds db ids uopt).sharings ↔
      row ∈ db.sharings ∧
        ¬(row.workflowId ∈ ids ∧
          (match uopt with | none => True | some u => row.userId = u.id)))
    ∧ (deleteByIds db ids uopt).roles = db.roles := by
  refine ⟨?_, rfl⟩
  cases uopt <;>
    simp [deleteByIds, matchesDeleteCriteria, List.mem_filter, and_comm]
  tauto

end N8n
